import Mathlib

/-!
Verification of the Anscombe-quartet regression script.

The script partitions the Anscombe dataset into labelled groups, runs
ordinary least-squares simple linear regression on each group via a
statistics-library call, and collects one result record per group.
We embed the numeric computation over exact rationals: the source formulas
are closed-form real-arithmetic expressions, and `ℚ` realises them exactly.
-/

namespace AnscombeRegression

open Finset

instance instDecEqExcept {ε α : Type} [DecidableEq ε] [DecidableEq α] :
    DecidableEq (Except ε α) := fun
  | .error a, .error b =>
      if h : a = b then .isTrue (by rw [h])
      else .isFalse (fun hc => h (by cases hc; rfl))
  | .error _, .ok _ => .isFalse (fun hc => Except.noConfusion hc)
  | .ok _, .error _ => .isFalse (fun hc => Except.noConfusion hc)
  | .ok a, .ok b =>
      if h : a = b then .isTrue (by rw [h])
      else .isFalse (fun hc => h (by cases hc; rfl))

/-- Output record of one regression: slope, intercept and coefficient of
determination, as produced by the Regression Calculator. -/
structure RegressionResult where
  slope : ℚ
  intercept : ℚ
  rSquared : ℚ
deriving DecidableEq

/-- The single error kind of the Regression Calculator. -/
inductive RegressError where
  | invalidInput
deriving DecidableEq

/-- Arithmetic mean of a list of rationals: `(1/n) Σ lᵢ`. -/
def mean (l : List ℚ) : ℚ :=
  (∑ i ∈ Finset.range l.length, l.getD i 0) / (l.length : ℚ)

/-- Centered second moment of the x values: `Σ (xᵢ - mean_x)²`. -/
def sxx (xs : List ℚ) : ℚ :=
  ∑ i ∈ Finset.range xs.length, (xs.getD i 0 - mean xs) ^ 2

/-- Centered second moment of the y values: `Σ (yᵢ - mean_y)²`. -/
def syy (ys : List ℚ) : ℚ :=
  ∑ i ∈ Finset.range ys.length, (ys.getD i 0 - mean ys) ^ 2

/-- Centered cross moment: `Σ (xᵢ - mean_x) (yᵢ - mean_y)`. -/
def sxy (xs ys : List ℚ) : ℚ :=
  ∑ i ∈ Finset.range xs.length, (xs.getD i 0 - mean xs) * (ys.getD i 0 - mean ys)

/-- Modelled from the spec: the Regression Calculator `regress`.  The source
delegates this computation to the external library routine
`stats.linregress` (src/ai_python_copilot.py line 30), whose implementation
is not part of this repository; the spec fixes its contract.  Preconditions:
equal lengths, `n ≥ 2`, non-zero x-variance; violation yields the single
error kind `InvalidInput`.  On valid input it returns
`slope = Σ(xᵢ-mx)(yᵢ-my) / Σ(xᵢ-mx)²`, `intercept = my - slope·mx`, and
`r_squared = r²` where `r = Σ(xᵢ-mx)(yᵢ-my) / sqrt(Σ(xᵢ-mx)²·Σ(yᵢ-my)²)`;
in exact arithmetic `r² = Sxy² / (Sxx·Syy)`, which is rational. -/
def regress (xs ys : List ℚ) : Except RegressError RegressionResult :=
  if xs.length ≠ ys.length ∨ xs.length < 2 ∨ sxx xs = 0 then
    .error .invalidInput
  else
    .ok { slope := sxy xs ys / sxx xs
          intercept := mean ys - (sxy xs ys / sxx xs) * mean xs
          rSquared := (sxy xs ys) ^ 2 / (sxx xs * syy ys) }

/-- Sum of squared vertical residuals of the line `y = a·x + b` over the
samples: `Σ (yᵢ - (a·xᵢ + b))²`. -/
def sse (xs ys : List ℚ) (a b : ℚ) : ℚ :=
  ∑ i ∈ Finset.range xs.length, (ys.getD i 0 - (a * xs.getD i 0 + b)) ^ 2

/-- One row of the source dataset: a group label and one (x, y) sample
(the columns `dataset`, `x`, `y` of the Anscombe table). -/
structure Row where
  dataset : String
  x : ℚ
  y : ℚ
deriving DecidableEq

/-- One entry of the results table built by the batch loop
(src/ai_python_copilot.py lines 32-37): exactly the four fields
`Dataset`, `Intercept`, `Slope`, `R-squared`. -/
structure ResultRow where
  Dataset : String
  Intercept : ℚ
  Slope : ℚ
  RSquared : ℚ
deriving DecidableEq

/-- The dictionary appended by the loop body (src/ai_python_copilot.py
lines 30-37): of the five values unpacked from the regression routine
(`slope, intercept, r_value, p_value, std_err`), only the first three are
used; `R-squared` is `r_value ** 2`, and `p_value` and `std_err` are
discarded. -/
def mkRow (name : String) (slope intercept rValue pValue stdErr : ℚ) : ResultRow :=
  { Dataset := name, Intercept := intercept, Slope := slope, RSquared := rValue ^ 2 }

/-- Auxiliary scan for `uniqueFirst`: emit each element not already seen,
remembering it in `seen`. -/
def uniqueFirstAux {α : Type} [DecidableEq α] (seen : List α) : List α → List α
  | [] => []
  | a :: l => if a ∈ seen then uniqueFirstAux seen l
              else a :: uniqueFirstAux (a :: seen) l

/-- Distinct elements of a list in order of first appearance: the semantics
of `anscombe['dataset'].unique()` (src/ai_python_copilot.py line 26); the
pandas `Series.unique` routine returns uniques in order of appearance. -/
def uniqueFirst {α : Type} [DecidableEq α] (l : List α) : List α :=
  uniqueFirstAux [] l

/-- The rows of the dataset carrying a given group label: the subset
selection `anscombe[anscombe['dataset'] == dataset_name]`
(src/ai_python_copilot.py line 27). -/
def subsetOf (data : List Row) (name : String) : List Row :=
  data.filter (fun r => r.dataset = name)

/-- The regression computed for one group: the loop body applied to the
group's own x and y columns (src/ai_python_copilot.py lines 27-30). -/
def groupResult (data : List Row) (name : String) : Except RegressError RegressionResult :=
  regress ((subsetOf data name).map Row.x) ((subsetOf data name).map Row.y)

/-- The per-group results produced when the groups are processed in a given
order: each label is paired with the regression of its own subset. -/
def resultsFor (order : List String) (data : List Row) :
    List (String × Except RegressError RegressionResult) :=
  order.map (fun name => (name, groupResult data name))

/-- The batch loop over an explicit list of group labels: one `ResultRow`
appended per label, aborting at the first failing regression (the script
has no handler around the library call). -/
def buildRows (data : List Row) : List String → Except RegressError (List ResultRow)
  | [] => .ok []
  | name :: rest =>
    match groupResult data name, buildRows data rest with
    | .error e, _ => .error e
    | .ok r, .error e => .error e
    | .ok r, .ok rows =>
        .ok ({ Dataset := name, Intercept := r.intercept,
               Slope := r.slope, RSquared := r.rSquared } :: rows)

/-- The whole batch (src/ai_python_copilot.py lines 26-37): iterate over the
distinct group labels in order of first appearance and collect one result
row per label. -/
def buildResults (data : List Row) : Except RegressError (List ResultRow) :=
  buildRows data (uniqueFirst (data.map Row.dataset))

/-- Modelled from the spec: the classic Anscombe quartet dataset.  The source
obtains it from the bundled seaborn table (src/ai_python_copilot.py line 14),
which is not part of this repository; the spec names "the classic four
Anscombe groups".  Groups I, II, III share
x = 10, 8, 13, 9, 11, 14, 6, 4, 12, 7, 5; group IV has x = 8 throughout
except one 19. -/
def anscombe : List Row :=
  [⟨"I", 10, 8.04⟩, ⟨"I", 8, 6.95⟩, ⟨"I", 13, 7.58⟩, ⟨"I", 9, 8.81⟩,
   ⟨"I", 11, 8.33⟩, ⟨"I", 14, 9.96⟩, ⟨"I", 6, 7.24⟩, ⟨"I", 4, 4.26⟩,
   ⟨"I", 12, 10.84⟩, ⟨"I", 7, 4.82⟩, ⟨"I", 5, 5.68⟩,
   ⟨"II", 10, 9.14⟩, ⟨"II", 8, 8.14⟩, ⟨"II", 13, 8.74⟩, ⟨"II", 9, 8.77⟩,
   ⟨"II", 11, 9.26⟩, ⟨"II", 14, 8.10⟩, ⟨"II", 6, 6.13⟩, ⟨"II", 4, 3.10⟩,
   ⟨"II", 12, 9.13⟩, ⟨"II", 7, 7.26⟩, ⟨"II", 5, 4.74⟩,
   ⟨"III", 10, 7.46⟩, ⟨"III", 8, 6.77⟩, ⟨"III", 13, 12.74⟩, ⟨"III", 9, 7.11⟩,
   ⟨"III", 11, 7.81⟩, ⟨"III", 14, 8.84⟩, ⟨"III", 6, 6.08⟩, ⟨"III", 4, 5.39⟩,
   ⟨"III", 12, 8.15⟩, ⟨"III", 7, 6.42⟩, ⟨"III", 5, 5.73⟩,
   ⟨"IV", 8, 6.58⟩, ⟨"IV", 8, 5.76⟩, ⟨"IV", 8, 7.71⟩, ⟨"IV", 8, 8.84⟩,
   ⟨"IV", 8, 8.47⟩, ⟨"IV", 8, 7.04⟩, ⟨"IV", 8, 5.25⟩, ⟨"IV", 19, 12.50⟩,
   ⟨"IV", 8, 5.56⟩, ⟨"IV", 8, 7.91⟩, ⟨"IV", 8, 6.89⟩]

example : regress [1, 2, 3] [2, 4, 6] =
    .ok { slope := 2, intercept := 0, rSquared := 1 } := by
  norm_num [regress, sxx, sxy, syy, mean, Finset.sum_range_succ]

example : regress [1, 1, 1] [1, 2, 3] = .error .invalidInput := by
  norm_num [regress, sxx, mean, Finset.sum_range_succ]

example : regress [1, 2, 3] [1, 2, 3, 4] = .error .invalidInput := by
  norm_num [regress]

example : uniqueFirst ["I", "II", "I", "III", "II"] = ["I", "II", "III"] := by
  simp [uniqueFirst, uniqueFirstAux]

lemma sxx_nonneg (xs : List ℚ) : 0 ≤ sxx xs :=
  Finset.sum_nonneg fun _ _ => sq_nonneg _

lemma syy_nonneg (ys : List ℚ) : 0 ≤ syy ys :=
  Finset.sum_nonneg fun _ _ => sq_nonneg _

lemma sum_getD_eq (l : List ℚ) (h : l.length ≠ 0) :
    ∑ i ∈ Finset.range l.length, l.getD i 0 = (l.length : ℚ) * mean l := by
  have h0 : (l.length : ℚ) ≠ 0 := Nat.cast_ne_zero.mpr h
  rw [mean]
  field_simp

lemma sum_center (l : List ℚ) (h : l.length ≠ 0) :
    ∑ i ∈ Finset.range l.length, (l.getD i 0 - mean l) = 0 := by
  rw [Finset.sum_sub_distrib, Finset.sum_const, Finset.card_range, nsmul_eq_mul,
    sum_getD_eq l h]
  ring

/-- C1: on every valid input (equal lengths, n ≥ 2, non-zero x-variance) the
regression returns slope `Σ(xᵢ-mx)(yᵢ-my) / Σ(xᵢ-mx)²`, intercept
`my - slope·mx`, and r_squared equal to the square of
`r = Σ(xᵢ-mx)(yᵢ-my) / sqrt(Σ(xᵢ-mx)²·Σ(yᵢ-my)²)`, where mx, my are the
arithmetic means. -/
theorem regress_formula (xs ys : List ℚ) (hlen : xs.length = ys.length)
    (hn : 2 ≤ xs.length) (hvar : sxx xs ≠ 0) :
    ∃ res, regress xs ys = Except.ok res ∧
      res.slope = sxy xs ys / sxx xs ∧
      res.intercept = mean ys - (sxy xs ys / sxx xs) * mean xs ∧
      (res.rSquared : ℝ) =
        ((sxy xs ys : ℝ) / Real.sqrt ((sxx xs : ℝ) * (syy ys : ℝ))) ^ 2 := by
  have hcond : ¬(xs.length ≠ ys.length ∨ xs.length < 2 ∨ sxx xs = 0) := by
    push_neg
    exact ⟨hlen, by omega, hvar⟩
  refine ⟨_, by rw [regress, if_neg hcond], rfl, rfl, ?_⟩
  have h0 : (0 : ℝ) ≤ (sxx xs : ℝ) * (syy ys : ℝ) := by
    have := mul_nonneg (sxx_nonneg xs) (syy_nonneg ys)
    exact_mod_cast this
  rw [div_pow, Real.sq_sqrt h0]
  push_cast
  ring

/-- C1 witness: the formula theorem applied to xs = [0,1,2], ys = [1,3,5]. -/
theorem regress_formula_witness :
    (([0, 1, 2] : List ℚ).length = ([1, 3, 5] : List ℚ).length ∧
      2 ≤ ([0, 1, 2] : List ℚ).length ∧ sxx [0, 1, 2] ≠ 0) ∧
    ∃ res, regress [0, 1, 2] [1, 3, 5] = Except.ok res ∧
      res.slope = sxy [0, 1, 2] [1, 3, 5] / sxx [0, 1, 2] ∧
      res.intercept =
        mean [1, 3, 5] - (sxy [0, 1, 2] [1, 3, 5] / sxx [0, 1, 2]) * mean [0, 1, 2] ∧
      (res.rSquared : ℝ) =
        ((sxy [0, 1, 2] [1, 3, 5] : ℝ) /
          Real.sqrt ((sxx [0, 1, 2] : ℝ) * (syy [1, 3, 5] : ℝ))) ^ 2 :=
  ⟨⟨rfl, by norm_num, by norm_num [sxx, mean, Finset.sum_range_succ]⟩,
    regress_formula [0, 1, 2] [1, 3, 5] rfl (by norm_num)
      (by norm_num [sxx, mean, Finset.sum_range_succ])⟩

/-- C3: the regression fails with an InvalidInput error exactly when a
precondition is violated (lengths differ, n < 2, or zero x-variance);
on every input satisfying the preconditions it returns a result, and
InvalidInput is the only failure kind. -/
theorem regress_error_characterization (xs ys : List ℚ) :
    (regress xs ys = Except.error RegressError.invalidInput ↔
      ¬(xs.length = ys.length ∧ 2 ≤ xs.length ∧ sxx xs ≠ 0)) ∧
    ((xs.length = ys.length ∧ 2 ≤ xs.length ∧ sxx xs ≠ 0) →
      ∃ res, regress xs ys = Except.ok res) ∧
    (∀ e : RegressError, regress xs ys = Except.error e →
      e = RegressError.invalidInput) := by
  refine ⟨?_, ?_, fun e _ => by cases e; rfl⟩
  · by_cases h : xs.length ≠ ys.length ∨ xs.length < 2 ∨ sxx xs = 0
    · rw [regress, if_pos h]
      simp only [true_iff]
      rintro ⟨h1, h2, h3⟩
      rcases h with h | h | h
      · exact h h1
      · omega
      · exact h3 h
    · rw [regress, if_neg h]
      push_neg at h
      simp only [reduceCtorEq, false_iff, not_not]
      exact ⟨h.1, by omega, h.2.2⟩
  · intro ⟨h1, h2, h3⟩
    have hcond : ¬(xs.length ≠ ys.length ∨ xs.length < 2 ∨ sxx xs = 0) := by
      push_neg
      exact ⟨h1, by omega, h3⟩
    exact ⟨_, by rw [regress, if_neg hcond]⟩

/-- C3 witness: the characterization applied to the spec's length-mismatch
example, xs of length 3 and ys of length 4. -/
theorem regress_error_characterization_witness :
    regress [1, 2, 3] [1, 2, 3, 4] = Except.error RegressError.invalidInput :=
  (regress_error_characterization [1, 2, 3] [1, 2, 3, 4]).1.mpr (by norm_num)

/-- C5: the perfect-fit example: xs = [1,2,3], ys = [2,4,6] gives slope 2,
intercept 0 and r_squared 1. -/
theorem perfect_fit :
    regress [1, 2, 3] [2, 4, 6] =
      Except.ok { slope := 2, intercept := 0, rSquared := 1 } := by
  norm_num [regress, sxx, sxy, syy, mean, Finset.sum_range_succ]

/-- C6: the degenerate example: xs = [1,1,1] has zero x-variance, so
regression on ys = [1,2,3] fails with InvalidInput. -/
theorem degenerate_zero_variance :
    regress [1, 1, 1] [1, 2, 3] = Except.error RegressError.invalidInput := by
  norm_num [regress, sxx, mean, Finset.sum_range_succ]

/-- C7: the regression is deterministic: two invocations on identical input
sequences return identical results (it is a pure function of its inputs). -/
theorem regress_deterministic (xs ys xs' ys' : List ℚ)
    (hx : xs = xs') (hy : ys = ys') : regress xs ys = regress xs' ys' := by
  rw [hx, hy]

/-- C7 witness: determinism applied to two invocations on xs = [1,2],
ys = [3,4]. -/
theorem regress_deterministic_witness :
    ([1, 2] : List ℚ) = [1, 2] ∧ ([3, 4] : List ℚ) = [3, 4] ∧
    regress [1, 2] [3, 4] = regress [1, 2] [3, 4] :=
  ⟨rfl, rfl, regress_deterministic [1, 2] [3, 4] [1, 2] [3, 4] rfl rfl⟩

/-- C10: a result entry carries exactly the four fields Dataset, Intercept,
Slope, R-squared; the row built from the five regression outputs does not
depend on p_value or std_err, which are discarded. -/
theorem result_row_fields (name : String) (s i r p e p' e' : ℚ) :
    mkRow name s i r p e = mkRow name s i r p' e' ∧
    mkRow name s i r p e =
      { Dataset := name, Intercept := i, Slope := s, RSquared := r ^ 2 } ∧
    ∀ row : ResultRow,
      row = { Dataset := row.Dataset, Intercept := row.Intercept,
              Slope := row.Slope, RSquared := row.RSquared } :=
  ⟨rfl, rfl, fun _ => rfl⟩

set_option maxHeartbeats 2000000 in
lemma anscombe_eval : buildResults anscombe = Except.ok
    [{ Dataset := "I", Intercept := 33001 / 11000, Slope := 5501 / 11000,
       RSquared := 30261001 / 45399960 },
     { Dataset := "II", Intercept := 3301 / 1100, Slope := 1 / 2,
       RSquared := 378125 / 567549 },
     { Dataset := "III", Intercept := 33027 / 11000, Slope := 5497 / 11000,
       RSquared := 30217009 / 45348820 },
     { Dataset := "IV", Intercept := 33019 / 11000, Slope := 5499 / 11000,
       RSquared := 10079667 / 15118580 }] := by
  simp [anscombe, buildResults, buildRows, uniqueFirst, uniqueFirstAux, groupResult,
    subsetOf, regress, sxx, sxy, syy, mean, Finset.sum_range_succ, List.filter_cons]
  norm_num

/-- C2: run on the four classic Anscombe groups, the batch produces four
rows, one per group I-IV, and every row has slope within 1e-2 of 0.500,
intercept within 1e-2 of 3.00 and r_squared within 1e-2 of 0.67. -/
theorem anscombe_quartet_results :
    ∃ rows, buildResults anscombe = Except.ok rows ∧
      rows.map ResultRow.Dataset = ["I", "II", "III", "IV"] ∧
      ∀ row ∈ rows, |row.Slope - 0.5| ≤ 1 / 100 ∧ |row.Intercept - 3| ≤ 1 / 100 ∧
        |row.RSquared - 0.67| ≤ 1 / 100 := by
  refine ⟨_, anscombe_eval, rfl, ?_⟩
  intro row hrow
  simp only [List.mem_cons, List.not_mem_nil, or_false] at hrow
  rcases hrow with h | h | h | h <;> subst h <;>
    refine ⟨abs_le.mpr ⟨by norm_num, by norm_num⟩,
            abs_le.mpr ⟨by norm_num, by norm_num⟩,
            abs_le.mpr ⟨by norm_num, by norm_num⟩⟩

lemma lookup_resultsFor (d : List Row) (g : String) (order : List String)
    (h : g ∈ order) :
    (resultsFor order d).lookup g = some (groupResult d g) := by
  induction order with
  | nil => cases h
  | cons o rest ih =>
    rw [resultsFor, List.map_cons, List.lookup]
    by_cases hog : o = g
    · subst hog
      simp
    · have hbeq : (g == o) = false :=
        beq_eq_false_iff_ne.mpr (fun hgo => hog hgo.symm)
      rw [hbeq]
      exact ih (List.mem_of_ne_of_mem (fun hgo => hog hgo.symm) h)

/-- C8: the result entry produced for a group depends only on that group's
own samples and not on the processing order: for any two datasets agreeing
on the subset of group g and any two orders containing g, the looked-up
entry for g is the same, and equals the regression of g's own subset. -/
theorem group_result_locality (d₁ d₂ : List Row) (g : String)
    (order₁ order₂ : List String) (hsub : subsetOf d₁ g = subsetOf d₂ g)
    (h₁ : g ∈ order₁) (h₂ : g ∈ order₂) :
    (resultsFor order₁ d₁).lookup g = (resultsFor order₂ d₂).lookup g ∧
    (resultsFor order₁ d₁).lookup g = some (groupResult d₁ g) := by
  have hg : groupResult d₁ g = groupResult d₂ g := by
    rw [groupResult, groupResult, hsub]
  exact ⟨by rw [lookup_resultsFor d₁ g order₁ h₁, lookup_resultsFor d₂ g order₂ h₂, hg],
    lookup_resultsFor d₁ g order₁ h₁⟩

/-- C8 witness: locality applied to two datasets that agree on group "g"
but differ elsewhere, processed in two different orders. -/
theorem group_result_locality_witness :
    subsetOf [⟨"g", 1, 2⟩, ⟨"g", 2, 3⟩, ⟨"h", 9, 9⟩] "g" =
      subsetOf [⟨"x", 5, 5⟩, ⟨"g", 1, 2⟩, ⟨"g", 2, 3⟩] "g" ∧
    "g" ∈ (["g", "h"] : List String) ∧ "g" ∈ (["x", "g"] : List String) ∧
    ((resultsFor ["g", "h"] [⟨"g", 1, 2⟩, ⟨"g", 2, 3⟩, ⟨"h", 9, 9⟩]).lookup "g" =
      (resultsFor ["x", "g"] [⟨"x", 5, 5⟩, ⟨"g", 1, 2⟩, ⟨"g", 2, 3⟩]).lookup "g" ∧
     (resultsFor ["g", "h"] [⟨"g", 1, 2⟩, ⟨"g", 2, 3⟩, ⟨"h", 9, 9⟩]).lookup "g" =
      some (groupResult [⟨"g", 1, 2⟩, ⟨"g", 2, 3⟩, ⟨"h", 9, 9⟩] "g")) :=
  ⟨by simp [subsetOf], by simp, by simp,
    group_result_locality [⟨"g", 1, 2⟩, ⟨"g", 2, 3⟩, ⟨"h", 9, 9⟩]
      [⟨"x", 5, 5⟩, ⟨"g", 1, 2⟩, ⟨"g", 2, 3⟩] "g" ["g", "h"] ["x", "g"]
      (by simp [subsetOf]) (by simp) (by simp)⟩

lemma mem_uniqueFirstAux {α : Type} [DecidableEq α] (l : List α) :
    ∀ (seen : List α) (b : α), b ∈ uniqueFirstAux seen l ↔ b ∈ l ∧ b ∉ seen := by
  induction l with
  | nil => intro seen b; simp [uniqueFirstAux]
  | cons a t ih =>
    intro seen b
    rw [uniqueFirstAux]
    by_cases ha : a ∈ seen
    · rw [if_pos ha, ih]
      constructor
      · rintro ⟨hb, hbs⟩
        exact ⟨List.mem_cons_of_mem _ hb, hbs⟩
      · rintro ⟨hb, hbs⟩
        rcases List.mem_cons.mp hb with rfl | hb
        · exact absurd ha hbs
        · exact ⟨hb, hbs⟩
    · rw [if_neg ha, List.mem_cons, ih]
      constructor
      · rintro (rfl | ⟨hb, hbs⟩)
        · exact ⟨List.mem_cons_self _ _, ha⟩
        · exact ⟨List.mem_cons_of_mem _ hb,
            fun hs => hbs (List.mem_cons_of_mem _ hs)⟩
      · rintro ⟨hb, hbs⟩
        rcases List.mem_cons.mp hb with rfl | hb
        · exact Or.inl rfl
        · by_cases hba : b = a
          · exact Or.inl hba
          · refine Or.inr ⟨hb, fun hs => ?_⟩
            rcases List.mem_cons.mp hs with h | h
            exacts [hba h, hbs h]

lemma nodup_uniqueFirstAux {α : Type} [DecidableEq α] (l : List α) :
    ∀ seen : List α, (uniqueFirstAux seen l).Nodup := by
  induction l with
  | nil => intro seen; simp [uniqueFirstAux]
  | cons a t ih =>
    intro seen
    rw [uniqueFirstAux]
    by_cases ha : a ∈ seen
    · rw [if_pos ha]
      exact ih seen
    · rw [if_neg ha]
      refine List.nodup_cons.mpr ⟨?_, ih (a :: seen)⟩
      intro hmem
      exact ((mem_uniqueFirstAux t (a :: seen) a).mp hmem).2 (List.mem_cons_self a seen)

lemma pairwise_uniqueFirstAux {α : Type} [DecidableEq α] (l : List α) :
    ∀ seen : List α,
      (uniqueFirstAux seen l).Pairwise (fun b c => l.indexOf b < l.indexOf c) := by
  induction l with
  | nil => intro seen; simp [uniqueFirstAux]
  | cons a t ih =>
    intro seen
    rw [uniqueFirstAux]
    by_cases ha : a ∈ seen
    · rw [if_pos ha]
      refine (ih seen).imp_of_mem ?_
      intro b c hb hc hbc
      have hbm := (mem_uniqueFirstAux t seen b).mp hb
      have hcm := (mem_uniqueFirstAux t seen c).mp hc
      have hbne : a ≠ b := fun h => hbm.2 (h ▸ ha)
      have hcne : a ≠ c := fun h => hcm.2 (h ▸ ha)
      rw [List.indexOf_cons_ne t hbne, List.indexOf_cons_ne t hcne]
      exact Nat.succ_lt_succ hbc
    · rw [if_neg ha, List.pairwise_cons]
      constructor
      · intro c hc
        have hcm := (mem_uniqueFirstAux t (a :: seen) c).mp hc
        have hcne : a ≠ c := fun h => hcm.2 (h ▸ List.mem_cons_self a seen)
        rw [List.indexOf_cons_self, List.indexOf_cons_ne t hcne]
        exact Nat.succ_pos _
      · refine (ih (a :: seen)).imp_of_mem ?_
        intro b c hb hc hbc
        have hbm := (mem_uniqueFirstAux t (a :: seen) b).mp hb
        have hcm := (mem_uniqueFirstAux t (a :: seen) c).mp hc
        have hbne : a ≠ b := fun h => hbm.2 (h ▸ List.mem_cons_self a seen)
        have hcne : a ≠ c := fun h => hcm.2 (h ▸ List.mem_cons_self a seen)
        rw [List.indexOf_cons_ne t hbne, List.indexOf_cons_ne t hcne]
        exact Nat.succ_lt_succ hbc

lemma mem_uniqueFirst {α : Type} [DecidableEq α] (l : List α) (b : α) :
    b ∈ uniqueFirst l ↔ b ∈ l := by
  rw [uniqueFirst, mem_uniqueFirstAux]
  simp

lemma nodup_uniqueFirst {α : Type} [DecidableEq α] (l : List α) :
    (uniqueFirst l).Nodup :=
  nodup_uniqueFirstAux l []

lemma pairwise_uniqueFirst {α : Type} [DecidableEq α] (l : List α) :
    (uniqueFirst l).Pairwise (fun b c => l.indexOf b < l.indexOf c) :=
  pairwise_uniqueFirstAux l []

lemma buildRows_ok_labels (data : List Row) (names : List String)
    (rows : List ResultRow) (h : buildRows data names = Except.ok rows) :
    rows.map ResultRow.Dataset = names := by
  induction names generalizing rows with
  | nil =>
    rw [buildRows] at h
    injection h with h
    subst h
    rfl
  | cons n rest ih =>
    rw [buildRows] at h
    cases hgr : groupResult data n with
    | error e =>
      rw [hgr] at h
      exact absurd h (by simp)
    | ok r =>
      cases hbr : buildRows data rest with
      | error e =>
        rw [hgr, hbr] at h
        exact absurd h (by simp)
      | ok rows' =>
        rw [hgr, hbr] at h
        injection h with h
        subst h
        rw [List.map_cons, ih rows' hbr]

/-- C9: a successful batch yields exactly one result row per distinct group
label of the source data (their label list has no duplicates and the same
members as the data's label column), and the rows appear in the order of
each label's first occurrence in the source data. -/
theorem results_one_row_per_label (data : List Row) (rows : List ResultRow)
    (h : buildResults data = Except.ok rows) :
    (rows.map ResultRow.Dataset).Nodup ∧
    (∀ s, s ∈ rows.map ResultRow.Dataset ↔ s ∈ data.map Row.dataset) ∧
    (rows.map ResultRow.Dataset).Pairwise
      (fun a b =>
        (data.map Row.dataset).indexOf a < (data.map Row.dataset).indexOf b) := by
  rw [buildResults] at h
  have hlab := buildRows_ok_labels data (uniqueFirst (data.map Row.dataset)) rows h
  rw [hlab]
  exact ⟨nodup_uniqueFirst _, fun s => mem_uniqueFirst _ s, pairwise_uniqueFirst _⟩

/-- C9 witness: the row-per-label theorem applied to a concrete two-group
dataset with interleaved labels. -/
theorem results_one_row_per_label_witness :
    (List.map ResultRow.Dataset
        [{ Dataset := "a", Intercept := 0, Slope := 2, RSquared := 1 },
         { Dataset := "b", Intercept := 5, Slope := 2, RSquared := 1 }]).Nodup ∧
    (∀ s, s ∈ List.map ResultRow.Dataset
        [{ Dataset := "a", Intercept := 0, Slope := 2, RSquared := 1 },
         { Dataset := "b", Intercept := 5, Slope := 2, RSquared := 1 }] ↔
      s ∈ List.map Row.dataset [⟨"a", 1, 2⟩, ⟨"b", 0, 5⟩, ⟨"a", 2, 4⟩, ⟨"b", 1, 7⟩]) ∧
    (List.map ResultRow.Dataset
        [{ Dataset := "a", Intercept := 0, Slope := 2, RSquared := 1 },
         { Dataset := "b", Intercept := 5, Slope := 2, RSquared := 1 }]).Pairwise
      (fun a b =>
        (List.map Row.dataset
            [⟨"a", 1, 2⟩, ⟨"b", 0, 5⟩, ⟨"a", 2, 4⟩, ⟨"b", 1, 7⟩]).indexOf a <
        (List.map Row.dataset
            [⟨"a", 1, 2⟩, ⟨"b", 0, 5⟩, ⟨"a", 2, 4⟩, ⟨"b", 1, 7⟩]).indexOf b) :=
  results_one_row_per_label [⟨"a", 1, 2⟩, ⟨"b", 0, 5⟩, ⟨"a", 2, 4⟩, ⟨"b", 1, 7⟩]
    [{ Dataset := "a", Intercept := 0, Slope := 2, RSquared := 1 },
     { Dataset := "b", Intercept := 5, Slope := 2, RSquared := 1 }]
    (by
      simp [buildResults, buildRows, uniqueFirst, uniqueFirstAux, groupResult,
        subsetOf, regress, sxx, sxy, syy, mean, Finset.sum_range_succ,
        List.filter_cons]
      norm_num)

lemma key_decomp (n : ℕ) (X Y : ℕ → ℚ) (mx my S C : ℚ)
    (hmx : ∑ i ∈ Finset.range n, (X i - mx) = 0)
    (hmy : ∑ i ∈ Finset.range n, (Y i - my) = 0)
    (hS : ∑ i ∈ Finset.range n, (X i - mx) ^ 2 = S)
    (hC : ∑ i ∈ Finset.range n, (X i - mx) * (Y i - my) = C)
    (hvar : S ≠ 0) (a b : ℚ) :
    ∑ i ∈ Finset.range n, (Y i - (a * X i + b)) ^ 2 =
      ∑ i ∈ Finset.range n, (Y i - ((C / S) * X i + (my - (C / S) * mx))) ^ 2 +
      ∑ i ∈ Finset.range n,
        ((C / S - a) * (X i - mx) + (my - a * mx - b)) ^ 2 := by
  have hr_sum : ∑ i ∈ Finset.range n, ((Y i - my) - C / S * (X i - mx)) = 0 := by
    rw [Finset.sum_sub_distrib, ← Finset.mul_sum, hmx, hmy]
    ring
  have hrx_sum : ∑ i ∈ Finset.range n,
      (((Y i - my) - C / S * (X i - mx)) * (X i - mx)) = 0 := by
    have hpt : ∀ i ∈ Finset.range n,
        ((Y i - my) - C / S * (X i - mx)) * (X i - mx) =
          (X i - mx) * (Y i - my) - C / S * (X i - mx) ^ 2 := fun i _ => by ring
    rw [Finset.sum_congr rfl hpt, Finset.sum_sub_distrib, ← Finset.mul_sum, hC, hS,
      div_mul_cancel₀ _ hvar, sub_self]
  have hrt_sum : ∑ i ∈ Finset.range n,
      (((Y i - my) - C / S * (X i - mx)) *
        ((C / S - a) * (X i - mx) + (my - a * mx - b))) = 0 := by
    have hpt : ∀ i ∈ Finset.range n,
        ((Y i - my) - C / S * (X i - mx)) *
            ((C / S - a) * (X i - mx) + (my - a * mx - b)) =
          (C / S - a) * (((Y i - my) - C / S * (X i - mx)) * (X i - mx)) +
            (my - a * mx - b) * ((Y i - my) - C / S * (X i - mx)) := fun i _ => by ring
    rw [Finset.sum_congr rfl hpt, Finset.sum_add_distrib, ← Finset.mul_sum,
      ← Finset.mul_sum, hrx_sum, hr_sum]
    ring
  have hpt : ∀ i ∈ Finset.range n, (Y i - (a * X i + b)) ^ 2 =
      (Y i - ((C / S) * X i + (my - (C / S) * mx))) ^ 2 +
        2 * (((Y i - my) - C / S * (X i - mx)) *
          ((C / S - a) * (X i - mx) + (my - a * mx - b))) +
        ((C / S - a) * (X i - mx) + (my - a * mx - b)) ^ 2 := fun i _ => by ring
  rw [Finset.sum_congr rfl hpt, Finset.sum_add_distrib, Finset.sum_add_distrib,
    ← Finset.mul_sum, hrt_sum]
  ring

lemma tsq_zero_unique (n : ℕ) (X : ℕ → ℚ) (mx S d c : ℚ)
    (hS : ∑ i ∈ Finset.range n, (X i - mx) ^ 2 = S) (hvar : S ≠ 0)
    (hmx : ∑ i ∈ Finset.range n, (X i - mx) = 0)
    (hn : (n : ℚ) ≠ 0)
    (ht : ∑ i ∈ Finset.range n, (d * (X i - mx) + c) ^ 2 = 0) :
    d = 0 ∧ c = 0 := by
  have hall : ∀ i ∈ Finset.range n, (d * (X i - mx) + c) ^ 2 = 0 :=
    (Finset.sum_eq_zero_iff_of_nonneg (fun i _ => sq_nonneg _)).mp ht
  have hall0 : ∀ i ∈ Finset.range n, d * (X i - mx) + c = 0 :=
    fun i hi => sq_eq_zero_iff.mp (hall i hi)
  have hsum : ∑ i ∈ Finset.range n, (d * (X i - mx) + c) = 0 :=
    Finset.sum_eq_zero hall0
  rw [Finset.sum_add_distrib, ← Finset.mul_sum, hmx, Finset.sum_const,
    Finset.card_range, nsmul_eq_mul, mul_zero, zero_add] at hsum
  have hc : c = 0 := by
    rcases mul_eq_zero.mp hsum with h | h
    · exact absurd h hn
    · exact h
  refine ⟨?_, hc⟩
  by_contra hd
  have hx0 : ∀ i ∈ Finset.range n, X i - mx = 0 := by
    intro i hi
    have h := hall0 i hi
    rw [hc, add_zero] at h
    exact (mul_eq_zero.mp h).resolve_left hd
  have hS0 : S = 0 := by
    rw [← hS]
    exact Finset.sum_eq_zero fun i hi => by rw [hx0 i hi]; ring
  exact hvar hS0

/-- C4: on every valid input the returned slope and intercept define the
unique line minimizing the sum of squared vertical residuals, and the
returned r_squared lies in [0, 1] (over exact rationals all returned values
are finite by construction). -/
theorem regress_minimizes (xs ys : List ℚ) (hlen : xs.length = ys.length)
    (hn : 2 ≤ xs.length) (hvar : sxx xs ≠ 0) :
    ∃ res, regress xs ys = Except.ok res ∧
      (∀ a b : ℚ, sse xs ys res.slope res.intercept ≤ sse xs ys a b) ∧
      (∀ a b : ℚ, sse xs ys a b = sse xs ys res.slope res.intercept →
        a = res.slope ∧ b = res.intercept) ∧
      0 ≤ res.rSquared ∧ res.rSquared ≤ 1 := by
  have hne : xs.length ≠ 0 := by omega
  have hQn : (xs.length : ℚ) ≠ 0 := Nat.cast_ne_zero.mpr hne
  have hmx : ∑ i ∈ Finset.range xs.length, (xs.getD i 0 - mean xs) = 0 :=
    sum_center xs hne
  have hmy : ∑ i ∈ Finset.range xs.length, (ys.getD i 0 - mean ys) = 0 := by
    have h := sum_center ys (by omega : ys.length ≠ 0)
    rw [hlen]
    exact h
  have hS : ∑ i ∈ Finset.range xs.length, (xs.getD i 0 - mean xs) ^ 2 = sxx xs := rfl
  have hC : ∑ i ∈ Finset.range xs.length,
      (xs.getD i 0 - mean xs) * (ys.getD i 0 - mean ys) = sxy xs ys := rfl
  have hcond : ¬(xs.length ≠ ys.length ∨ xs.length < 2 ∨ sxx xs = 0) := by
    push_neg
    exact ⟨hlen, by omega, hvar⟩
  refine ⟨{ slope := sxy xs ys / sxx xs,
            intercept := mean ys - (sxy xs ys / sxx xs) * mean xs,
            rSquared := (sxy xs ys) ^ 2 / (sxx xs * syy ys) },
          by rw [regress, if_neg hcond], ?_, ?_, ?_, ?_⟩
  · intro a b
    have hdecomp : sse xs ys a b =
        sse xs ys (sxy xs ys / sxx xs)
          (mean ys - (sxy xs ys / sxx xs) * mean xs) +
        ∑ i ∈ Finset.range xs.length,
          ((sxy xs ys / sxx xs - a) * (xs.getD i 0 - mean xs) +
            (mean ys - a * mean xs - b)) ^ 2 :=
      key_decomp xs.length (fun i => xs.getD i 0) (fun i => ys.getD i 0)
        (mean xs) (mean ys) (sxx xs) (sxy xs ys) hmx hmy hS hC hvar a b
    rw [hdecomp]
    exact le_add_of_nonneg_right (Finset.sum_nonneg fun i _ => sq_nonneg _)
  · intro a b hab
    have hdecomp : sse xs ys a b =
        sse xs ys (sxy xs ys / sxx xs)
          (mean ys - (sxy xs ys / sxx xs) * mean xs) +
        ∑ i ∈ Finset.range xs.length,
          ((sxy xs ys / sxx xs - a) * (xs.getD i 0 - mean xs) +
            (mean ys - a * mean xs - b)) ^ 2 :=
      key_decomp xs.length (fun i => xs.getD i 0) (fun i => ys.getD i 0)
        (mean xs) (mean ys) (sxx xs) (sxy xs ys) hmx hmy hS hC hvar a b
    have ht : ∑ i ∈ Finset.range xs.length,
        ((sxy xs ys / sxx xs - a) * (xs.getD i 0 - mean xs) +
          (mean ys - a * mean xs - b)) ^ 2 = 0 := by
      rw [hab] at hdecomp
      linarith [hdecomp]
    obtain ⟨hd, hc⟩ := tsq_zero_unique xs.length (fun i => xs.getD i 0) (mean xs)
      (sxx xs) (sxy xs ys / sxx xs - a) (mean ys - a * mean xs - b)
      hS hvar hmx hQn ht
    have ha : a = sxy xs ys / sxx xs := (sub_eq_zero.mp hd).symm
    refine ⟨ha, ?_⟩
    have hb : b = mean ys - a * mean xs := by linarith [hc]
    rw [hb, ha]
  · exact div_nonneg (sq_nonneg _) (mul_nonneg (sxx_nonneg xs) (syy_nonneg ys))
  · have hCS : (sxy xs ys) ^ 2 ≤ sxx xs * syy ys := by
      have h := Finset.sum_mul_sq_le_sq_mul_sq (Finset.range xs.length)
        (fun i => xs.getD i 0 - mean xs) (fun i => ys.getD i 0 - mean ys)
      calc (sxy xs ys) ^ 2
          ≤ sxx xs * ∑ i ∈ Finset.range xs.length, (ys.getD i 0 - mean ys) ^ 2 := h
        _ = sxx xs * syy ys := by rw [hlen]; rfl
    rcases eq_or_ne (sxx xs * syy ys) 0 with h0 | h0
    · rw [h0, div_zero]
      exact zero_le_one
    · have hpos : 0 < sxx xs * syy ys :=
        lt_of_le_of_ne (mul_nonneg (sxx_nonneg xs) (syy_nonneg ys)) (Ne.symm h0)
      exact (div_le_one hpos).mpr hCS

/-- C4 witness: the minimizer theorem applied to xs = [1,2,4], ys = [3,5,6]. -/
theorem regress_minimizes_witness :
    (([1, 2, 4] : List ℚ).length = ([3, 5, 6] : List ℚ).length ∧
      2 ≤ ([1, 2, 4] : List ℚ).length ∧ sxx [1, 2, 4] ≠ 0) ∧
    ∃ res, regress [1, 2, 4] [3, 5, 6] = Except.ok res ∧
      (∀ a b : ℚ, sse [1, 2, 4] [3, 5, 6] res.slope res.intercept ≤
        sse [1, 2, 4] [3, 5, 6] a b) ∧
      (∀ a b : ℚ, sse [1, 2, 4] [3, 5, 6] a b =
          sse [1, 2, 4] [3, 5, 6] res.slope res.intercept →
        a = res.slope ∧ b = res.intercept) ∧
      0 ≤ res.rSquared ∧ res.rSquared ≤ 1 :=
  ⟨⟨rfl, by norm_num, by norm_num [sxx, mean, Finset.sum_range_succ]⟩,
    regress_minimizes [1, 2, 4] [3, 5, 6] rfl (by norm_num)
      (by norm_num [sxx, mean, Finset.sum_range_succ])⟩

end AnscombeRegression
